import Mathlib

/-!
Verification development for the raycast-rbx-docs extension
(`src/data-fetcher.ts` and `src/creator-docs.tsx`).

Strings are modelled as lists of characters (`Str`); JavaScript string
operations (`toLowerCase`, `includes`, `startsWith`, `split`, `trim`,
`slice`, template literals, truthiness of `""`/`undefined`) are embedded
as executable functions on `Str`.  Fallible external collaborators (the
YAML parser, the frontmatter match, the HTTP download, `JSZip.loadAsync`)
are modelled by `Option`/`Except` oracles carried by the input data, so
that every function of the source becomes a total executable Lean
function of its inputs.
-/

/-- JavaScript strings, modelled as lists of characters. -/
abbrev Str := List Char

/-- JS `String.prototype.toLowerCase`, per character (ASCII model). -/
def toLowerStr (s : Str) : Str := s.map Char.toLower

/-- JS `hay.includes(sub)`: `sub` occurs as a contiguous substring of `hay`. -/
def strIncludes : Str → Str → Bool
  | [], sub => sub.isEmpty
  | c :: rest, sub => List.isPrefixOf sub (c :: rest) || strIncludes rest sub

/-- `strIncludes` decides the `List.IsInfix` relation. -/
theorem strIncludes_iff (hay sub : Str) : strIncludes hay sub = true ↔ sub <:+: hay := by
  induction hay with
  | nil =>
    simp [strIncludes, List.isEmpty_iff]
  | cons c rest ih =>
    simp only [strIncludes, Bool.or_eq_true, List.isPrefixOf_iff_prefix, ih,
      List.infix_cons_iff]

/-- JS `String.prototype.trim` (ASCII whitespace model). -/
def jsTrim (s : Str) : Str :=
  ((s.dropWhile Char.isWhitespace).reverse.dropWhile Char.isWhitespace).reverse

/-- JS `s.split(sep)` for a single-character separator class: splits at every
character satisfying `p`, keeping empty segments (as JS does). -/
def splitOnPred (p : Char → Bool) : Str → List Str
  | [] => [[]]
  | c :: rest =>
    if p c then [] :: splitOnPred p rest
    else
      match splitOnPred p rest with
      | [] => [[c]]
      | h :: t => (c :: h) :: t

/-- Characters treated as title separators by the ranker's regex `/[:.]/`. -/
def isSepChar (c : Char) : Bool := c == ':' || c == '.'

/-- JS `\w` word characters: letters, digits, underscore (ASCII model). -/
def isWordChar (c : Char) : Bool := c.isAlphanum || c == '_'

/-- JS falsy-or on an optional string: `o || d` (both `undefined` and `""` are falsy). -/
def jsOrStr (o : Option Str) (d : Str) : Str :=
  match o with
  | none => d
  | some s => if s = [] then d else s

/-- JS template-literal rendering of a possibly-`undefined` string. -/
def jsShowOpt (o : Option Str) : Str := o.getD "undefined".toList

/-- Strip a leading `content/en-us/` (regex `/^content\x2fen-us\x2f/` of `cleanPath`). -/
def stripContentRoot (s : Str) : Str :=
  if List.isPrefixOf "content/en-us/".toList s then s.drop "content/en-us/".toList.length else s

/-- Strip a trailing `.md` or `.yaml` (regex of `cleanPath` / `extractTitleFromPath`). -/
def stripExtension (s : Str) : Str :=
  if List.isSuffixOf ".md".toList s then s.take (s.length - 3)
  else if List.isSuffixOf ".yaml".toList s then s.take (s.length - 5)
  else s

/-- `cleanPath` from `data-fetcher.ts`: drop the content root, then the extension. -/
def cleanPath (path : Str) : Str := stripExtension (stripContentRoot path)

/-- Suffix of `s` starting at the first occurrence of `marker`, or `none` if absent. -/
def findMarker (marker : Str) : Str → Option Str
  | [] => if List.isPrefixOf marker ([] : Str) then some [] else none
  | c :: rest =>
    if List.isPrefixOf marker (c :: rest) then some (c :: rest)
    else findMarker marker rest

/-- JS `path.substring(path.indexOf(marker))`: when the marker is absent,
`indexOf` yields `-1` and `substring(-1)` clamps to the whole string. -/
def substringFromMarker (marker s : Str) : Str := (findMarker marker s).getD s

/-- The sub-entry categories walked by `parseYamlFile` (`ENGINE_REF_ITEMS`). -/
def ENGINE_REF_ITEMS : List Str :=
  ["properties".toList, "methods".toList, "events".toList,
   "callbacks".toList, "items".toList, "functions".toList]

/-- `SUBITEM_TYPE_MAP` lookup with the `|| "reference"` default of
`subitemToDocItem` (note `items` is absent from the map). -/
def subitemTypeMap (k : Str) : Str :=
  if k = "properties".toList then "property".toList
  else if k = "methods".toList then "method".toList
  else if k = "events".toList then "event".toList
  else if k = "callbacks".toList then "callback".toList
  else if k = "functions".toList then "function".toList
  else "reference".toList

/-- One entry of a YAML `properties`/`methods`/... array. -/
structure YamlSubItem where
  name : Str
  summary : Option Str
  tags : Option (List Str)
deriving DecidableEq, Repr

/-- `isDeprecated` from `data-fetcher.ts`: the tags array exists and
contains the literal `"Deprecated"`. -/
def isDeprecated (item : YamlSubItem) : Bool :=
  match item.tags with
  | none => false
  | some ts => ts.contains "Deprecated".toList

/-- The parsed shape of a structured YAML definition document (`YAMLDocData`). -/
structure YAMLDocData where
  name : Option Str
  type : Option Str
  summary : Option Str
  properties : Option (List YamlSubItem)
  methods : Option (List YamlSubItem)
  events : Option (List YamlSubItem)
  callbacks : Option (List YamlSubItem)
  items : Option (List YamlSubItem)
  functions : Option (List YamlSubItem)
deriving DecidableEq, Repr

/-- The dynamic lookup `data[key]` over the fixed category keys. -/
def getCat (d : YAMLDocData) (k : Str) : Option (List YamlSubItem) :=
  if k = "properties".toList then d.properties
  else if k = "methods".toList then d.methods
  else if k = "events".toList then d.events
  else if k = "callbacks".toList then d.callbacks
  else if k = "items".toList then d.items
  else if k = "functions".toList then d.functions
  else none

/-- A sub-entry extracted by `parseYamlFile` (interface `SubitemData`). -/
structure SubitemData where
  type : Str
  title : Str
  description : Str
deriving DecidableEq, Repr

/-- The parsed frontmatter of a markdown file (title/description fields). -/
structure MdFrontmatter where
  title : Option Str
  description : Option Str
deriving DecidableEq, Repr

/-- Interface `FileMetadata` of `data-fetcher.ts` (an absent `subitems`
array is modelled as the empty list, matching every use site). -/
structure FileMetadata where
  title : Option Str
  description : Option Str
  path : Str
  type : Str
  subitems : List SubitemData
deriving DecidableEq, Repr

/-- Interface `DocItem` of `data-fetcher.ts`; `type` is kept as a string. -/
structure DocItem where
  id : Str
  title : Str
  description : Str
  url : Str
  category : Str
  keywords : List Str
  type : Str
deriving DecidableEq, Repr

/-- `truncateDescription`: falsy input gives `""`; text longer than 200
characters is cut to 200 plus an ellipsis marker. -/
def truncateDescription (description : Option Str) : Str :=
  match description with
  | none => []
  | some s =>
    if s = [] then []
    else if 200 < s.length then s.take 200 ++ "...".toList
    else s

/-- `extractTitleFromPath`: last path segment (JS `split("/").pop() || ""`),
extension removed, dashes and underscores turned into spaces. -/
def extractTitleFromPath (filePath : Str) : Str :=
  (stripExtension ((splitOnPred (fun c => c == '/') filePath).getLastD [])).map
    (fun c => if c == '-' || c == '_' then ' ' else c)

/-- `getCategoryFromPath`: first matching path fragment decides the category. -/
def getCategoryFromPath (path : Str) : Str :=
  if strIncludes path "/reference/engine/classes/".toList then "Classes".toList
  else if strIncludes path "/reference/engine/enums/".toList then "Enums".toList
  else if strIncludes path "/reference/engine/globals/".toList then "Globals".toList
  else if strIncludes path "/tutorials/".toList then "Tutorials".toList
  else if strIncludes path "/scripting/".toList then "Scripting".toList
  else if strIncludes path "/art/".toList then "Art".toList
  else if strIncludes path "/physics/".toList then "Physics".toList
  else if strIncludes path "/ui/".toList then "UI".toList
  else if strIncludes path "/sound/".toList then "Sound".toList
  else if strIncludes path "/animation/".toList then "Animation".toList
  else if strIncludes path "/lighting/".toList then "Lighting".toList
  else "Documentation".toList

/-- `getTypeFromMetadata`: explicit structured types win, then path shape. -/
def getTypeFromMetadata (metadata : FileMetadata) : Str :=
  if metadata.type = "class".toList then "class".toList
  else if metadata.type = "service".toList then "service".toList
  else if metadata.type = "enum".toList then "enum".toList
  else if metadata.type = "global".toList then "global".toList
  else if strIncludes metadata.path "/tutorials/".toList then "tutorial".toList
  else if strIncludes metadata.path "/reference/".toList then "reference".toList
  else "guide".toList

/-- Keep the first occurrence of each element, dropping later duplicates
(the insertion-order behaviour of a JS `Set`). -/
def dedupKeepFirst (seen : List Str) : List Str → List Str
  | [] => []
  | x :: xs =>
    if seen.contains x then dedupKeepFirst seen xs
    else x :: dedupKeepFirst (x :: seen) xs

/-- `generateKeywords`: words of the lowercased title and description (split
on non-word characters), then lowercased path segments, each kept when
longer than 2 characters, deduplicated in insertion order, capped at 10. -/
def generateKeywords (title description path : Str) : List Str :=
  dedupKeepFirst []
    (((splitOnPred (fun c => !isWordChar c) (toLowerStr title)).filter
        (fun w => 2 < w.length)) ++
      ((splitOnPred (fun c => !isWordChar c) (toLowerStr description)).filter
        (fun w => 2 < w.length)) ++
      ((splitOnPred (fun c => c == '/') (toLowerStr path)).filter
        (fun w => 2 < w.length))) |>.take 10

/-- `generateIdFromPath`: clean the path, replace every character outside
`[a-zA-Z0-9]` with a dash (regex flag `i`), then lowercase. -/
def generateIdFromPath (path : Str) : Str :=
  toLowerStr ((cleanPath path).map (fun c => if c.isAlphanum then c else '-'))

/-- The sanitisation applied to a sub-entry title inside its id:
lowercase first, then replace every character outside `[a-z0-9]` with a dash. -/
def sanitizeLowerId (s : Str) : Str :=
  (toLowerStr s).map (fun c => if c.isLower || c.isDigit then c else '-')

/-- `pathToUrl`: public documentation URL for a cleaned internal path. -/
def pathToUrl (path : Str) : Str :=
  "https://create.roblox.com/docs/".toList ++ cleanPath path

/-- `metadataToDocItem`: `null` when the title is falsy, otherwise the
parent-level `DocItem` derived from the file metadata. -/
def metadataToDocItem (metadata : FileMetadata) : Option DocItem :=
  match metadata.title with
  | none => none
  | some t =>
    if t = [] then none
    else
      some
        { id := generateIdFromPath metadata.path
          title := t
          description := (metadata.description).getD []
          url := pathToUrl metadata.path
          category := getCategoryFromPath metadata.path
          keywords := generateKeywords t ((metadata.description).getD []) metadata.path
          type := getTypeFromMetadata metadata }

/-- The anchor extracted from a sub-entry title by `subitemToDocItem`:
the part after the last `:` when present, else after the last `.`,
with the whole title as JS `|| subitem.title` fallback. -/
def anchorNameOf (title : Str) : Str :=
  if title.contains ':' then
    match (splitOnPred (fun c => c == ':') title).getLast? with
    | some p => if p.isEmpty then title else p
    | none => title
  else if title.contains '.' then
    match (splitOnPred (fun c => c == '.') title).getLast? with
    | some p => if p.isEmpty then title else p
    | none => title
  else title

/-- The synthesized description used when a sub-entry has no summary:
the category key with its final `s` sliced off, then ` of `, then the
parent title (a JS template literal, so an absent title prints
`undefined`). -/
def subitemFallbackDescription (subitem : SubitemData) (parentMetadata : FileMetadata) : Str :=
  subitem.type.dropLast ++ " of ".toList ++ jsShowOpt parentMetadata.title

/-- `subitemToDocItem`: `null` when the sub-entry title is falsy, otherwise
the flattened member-level `DocItem` (id extends the parent id, URL gains
an anchor fragment, missing descriptions fall back to a synthesized one). -/
def subitemToDocItem (subitem : SubitemData) (parentMetadata : FileMetadata) : Option DocItem :=
  if subitem.title = [] then none
  else
    some
      { id := generateIdFromPath parentMetadata.path ++ '-' :: sanitizeLowerId subitem.title
        title := subitem.title
        description :=
          if subitem.description = [] then subitemFallbackDescription subitem parentMetadata
          else subitem.description
        url := pathToUrl parentMetadata.path ++ '#' :: anchorNameOf subitem.title
        category := getCategoryFromPath parentMetadata.path
        keywords := generateKeywords subitem.title subitem.description parentMetadata.path
        type := subitemTypeMap subitem.type }

/-- The title given to a sub-entry by `parseYamlFile`: generated as
`Owner.Member` for enumeration-type owners, the raw item name otherwise. -/
def subitemTitle (dtype : Option Str) (name : Str) (item : YamlSubItem) : Str :=
  if dtype = some "enum".toList then name ++ '.' :: item.name else item.name

/-- One sub-entry record built inside `parseYamlFile`'s extraction loop. -/
def mkSubitem (dtype : Option Str) (name : Str) (k : Str) (item : YamlSubItem) : SubitemData :=
  { type := k
    title := subitemTitle dtype name item
    description := truncateDescription item.summary }

/-- The sub-entry extraction loop of `parseYamlFile`: for each category key
in order, take at most 50 items, skip deprecated ones, build a record. -/
def extractSubitems (d : YAMLDocData) (name : Str) : List SubitemData :=
  ENGINE_REF_ITEMS.flatMap
    (fun k =>
      match getCat d k with
      | none => []
      | some l => ((l.take 50).filter (fun item => !isDeprecated item)).map (mkSubitem d.type name k))

/-- `parseYamlFile`: `null` on a YAML parse error or a falsy `name`,
otherwise the file metadata with its extracted sub-entries. -/
def parseYamlFile (url : Str) (parsed : Except Unit YAMLDocData) : Option FileMetadata :=
  match parsed with
  | Except.error _ => none
  | Except.ok d =>
    match d.name with
    | none => none
    | some n =>
      if n = [] then none
      else
        some
          { title := some n
            type := jsOrStr d.type "class".toList
            path := url
            description := some (truncateDescription d.summary)
            subitems := extractSubitems d n }

/-- `parseMarkdownFile`: a missing or unparsable frontmatter block degrades
to a minimal path-derived metadata; otherwise title and truncated
description come from the frontmatter. -/
def parseMarkdownFile (filePath url : Str) (frontmatter : Option (Except Unit MdFrontmatter)) :
    FileMetadata :=
  match frontmatter with
  | none =>
    { title := some (extractTitleFromPath filePath), description := none
      path := url, type := "article".toList, subitems := [] }
  | some (Except.error _) =>
    { title := some (extractTitleFromPath filePath), description := none
      path := url, type := "article".toList, subitems := [] }
  | some (Except.ok m) =>
    { title := some (jsOrStr m.title (extractTitleFromPath filePath))
      description := some (truncateDescription m.description)
      path := url, type := "article".toList, subitems := [] }

/-- One file of the downloaded archive.  The outcome of each external
parser applied to the raw text is carried as an oracle: `mdParse` is the
frontmatter match plus its YAML load, `yamlParse` the YAML document load. -/
structure ZipFile where
  path : Str
  dir : Bool
  mdParse : Option (Except Unit MdFrontmatter)
  yamlParse : Except Unit YAMLDocData

/-- The relevance filter of `processZipArchiveOptimized`: under the content
root, a recognised extension, not a directory entry. -/
def isRelevantFile (f : ZipFile) : Bool :=
  strIncludes f.path "content/en-us/".toList &&
    (List.isSuffixOf ".md".toList f.path || List.isSuffixOf ".yaml".toList f.path) &&
    !f.dir

/-- The per-file metadata step of the batch loop: the URL is the suffix of
the archive path from `content/en-us/`, and the parser is chosen by
extension (`null` for anything else, unreachable after the filter). -/
def fileMetadataOf (f : ZipFile) : Option FileMetadata :=
  if List.isSuffixOf ".md".toList f.path then
    some (parseMarkdownFile f.path (substringFromMarker "content/en-us/".toList f.path) f.mdParse)
  else if List.isSuffixOf ".yaml".toList f.path then
    parseYamlFile (substringFromMarker "content/en-us/".toList f.path) f.yamlParse
  else none

/-- The records contributed by one file: the parent `DocItem` when the
metadata converts, followed by its converted sub-entries. -/
def processFile (f : ZipFile) : List DocItem :=
  match fileMetadataOf f with
  | none => []
  | some metadata =>
    match metadataToDocItem metadata with
    | none => []
    | some docItem =>
      docItem :: metadata.subitems.filterMap (fun s => subitemToDocItem s metadata)

/-- `processZipArchiveOptimized` on an already-opened archive: filter the
relevant files, then accumulate each file's records in order.  The batch
structure (25 files per batch, concurrently decoded, batches sequential)
only bounds memory; `Promise.all` keeps batch order, so the accumulated
list equals this flat traversal. -/
def processZipFiles (files : List ZipFile) : List DocItem :=
  (files.filter isRelevantFile).flatMap processFile

/-- `processZipArchiveOptimized` including the `JSZip.loadAsync` step: a
failure to open the archive is re-thrown by the catch block; an opened
archive is processed to completion (per-file failures are already the
parse oracles inside `ZipFile`). -/
def processZipArchive (zipLoad : Except Unit (List ZipFile)) : Except Unit (List DocItem) :=
  match zipLoad with
  | Except.error e => Except.error e
  | Except.ok files => Except.ok (processZipFiles files)

/-- The parsed cached payload: `{ data, timestamp, sha }` as written by
`fetchFreshData`.  Note the shape carries no extension-version tag. -/
structure CacheEntry where
  data : List DocItem
  timestamp : Nat
  sha : Option Str
deriving DecidableEq, Repr

/-- The cache TTL fallback of 24 hours, in milliseconds (`cacheExpiry`). -/
def cacheExpiry : Nat := 24 * 60 * 60 * 1000

/-- `getCachedData`: the stored slot is `none` when the key is absent,
`some (Except.error _)` when `JSON.parse` throws, `some (Except.ok e)`
otherwise.  A missing, corrupt, or time-expired entry reads as `null`;
everything else is returned as-is. -/
def getCachedData (stored : Option (Except Unit CacheEntry)) (now : Nat) : Option CacheEntry :=
  match stored with
  | none => none
  | some (Except.error _) => none
  | some (Except.ok parsed) =>
    if cacheExpiry < now - parsed.timestamp then none else some parsed

/-- The observable decision taken by `fetchDocsData`.  `servedFromCache`
returns the cached records after scheduling the non-blocking background
update check; `blockingFreshFetch` is the `fetchFreshData` path, on which
no background check is scheduled. -/
inductive FetchOutcome where
  | servedFromCache (items : List DocItem) (backgroundCheckScheduled : Bool)
  | blockingFreshFetch
deriving DecidableEq, Repr

/-- `fetchDocsData`: serve the cache only when it is valid and non-empty
(`cachedData && cachedData.data.length > 0`); otherwise fall through to a
blocking fresh fetch. -/
def fetchDocsData (stored : Option (Except Unit CacheEntry)) (now : Nat) : FetchOutcome :=
  match getCachedData stored now with
  | some cachedData =>
    if 0 < cachedData.data.length then FetchOutcome.servedFromCache cachedData.data true
    else FetchOutcome.blockingFreshFetch
  | none => FetchOutcome.blockingFreshFetch

/-- `fetchFreshData`.  `download` is the outcome of the archive fetch: the
outer `Except` is a transport/HTTP failure (`!zipResponse.ok` or an abort,
thrown inside the `try`), the inner one the `JSZip.loadAsync` outcome fed
to `processZipArchive`.  The function returns the produced records paired
with the cache slot after the call; the surrounding `try/catch` converts
every thrown error into `([], unchanged cache)`, so the result is always
`Except.ok` — nothing propagates to the caller. -/
def fetchFreshData (latestSha : Option Str) (download : Except Unit (Except Unit (List ZipFile)))
    (cache : Option CacheEntry) (now : Nat) :
    Except Unit (List DocItem × Option CacheEntry) :=
  match (do
    let zipLoad ← download
    let docItems ← processZipArchive zipLoad
    pure docItems : Except Unit (List DocItem)) with
  | Except.error _ => Except.ok ([], cache)
  | Except.ok docItems =>
    Except.ok (docItems, some { data := docItems, timestamp := now, sha := latestSha })

/-- `MAX_DISPLAYED_RESULTS` from `creator-docs.tsx`. -/
def MAX_DISPLAYED_RESULTS : Nat := 50

/-- The code's title-part extraction for the exact-match test:
`titleLower.split(/[:.]/)[1] || titleLower` guarded by a separator check —
the segment after the FIRST separator, with the whole title as fallback
when that segment is absent or empty. -/
def codeTitlePart (titleLower : Str) : Str :=
  if titleLower.contains ':' || titleLower.contains '.' then
    match splitOnPred isSepChar titleLower with
    | _ :: p :: _ => if p.isEmpty then titleLower else p
    | _ => titleLower
  else titleLower

/-- The tiered base score for a title that contains the query:
1000 for an exact match of the full title or of `codeTitlePart`,
500 for a prefix match, 250 otherwise. -/
def titleBaseScore (searchLower titleLower : Str) : Int :=
  if titleLower = searchLower ∨ codeTitlePart titleLower = searchLower then 1000
  else if List.isPrefixOf searchLower titleLower then 500
  else 250

/-- The per-record scoring of `filteredDocs` in `creator-docs.tsx`:
`none` means the record is skipped entirely; otherwise the final score. -/
def scoreDoc (searchLower : Str) (doc : DocItem) : Option Int :=
  if strIncludes (toLowerStr doc.title) searchLower then
    Option.some
      (titleBaseScore searchLower (toLowerStr doc.title) *
          (if doc.category = "Classes".toList ∧
              (doc.type = "class".toList ∨ doc.type = "service".toList) then 10
            else if doc.category = "Classes".toList then 8
            else 1) -
        doc.title.length)
  else
    if !strIncludes (toLowerStr doc.description) searchLower &&
        !(doc.keywords.any (fun keyword => strIncludes (toLowerStr keyword) searchLower)) &&
        !strIncludes (toLowerStr doc.category) searchLower &&
        !strIncludes (toLowerStr doc.type) searchLower then
      none
    else
      Option.some
        ((if strIncludes (toLowerStr doc.description) searchLower then 100
          else if doc.keywords.any (fun keyword => strIncludes (toLowerStr keyword) searchLower)
            then 75
          else 50) *
          (if doc.category = "Classes".toList then 8 else 1))

/-- Insert a scored record into a descending-sorted list, after every
earlier record of greater-or-equal score: the placement a JS stable sort
with comparator `(a, b) => b.score - a.score` gives to a later element. -/
def insertScored (x : DocItem × Int) : List (DocItem × Int) → List (DocItem × Int)
  | [] => [x]
  | y :: ys => if y.2 ≤ x.2 then x :: y :: ys else y :: insertScored x ys

/-- Stable descending sort by score, modelling `results.sort((a, b) => b.score - a.score)`. -/
def sortResults : List (DocItem × Int) → List (DocItem × Int)
  | [] => []
  | x :: xs => insertScored x (sortResults xs)

/-- The scored and sorted result list of `filteredDocs`, before truncation:
empty when no data is loaded or the query is whitespace-only, else every
record paired with its score, filtered of non-matches, sorted descending. -/
def rankScored (searchText : Str) (allDocs : List DocItem) : List (DocItem × Int) :=
  if allDocs.isEmpty then []
  else if jsTrim searchText = [] then []
  else
    sortResults
      (allDocs.filterMap
        (fun doc => (scoreDoc (toLowerStr searchText) doc).map (fun s => (doc, s))))

/-- `filteredDocs` from `creator-docs.tsx`, with the display limit as a
parameter (the component instantiates it with `MAX_DISPLAYED_RESULTS`). -/
def filteredDocs (searchText : Str) (allDocs : List DocItem) (limit : Nat) : List DocItem :=
  ((rankScored searchText allDocs).take limit).map Prod.fst

/-- The same ranking with no truncation (`rank(q, R, +infinity)`). -/
def filteredDocsAll (searchText : Str) (allDocs : List DocItem) : List DocItem :=
  (rankScored searchText allDocs).map Prod.fst

/-- Case-insensitive containment of the query in at least one searchable
field of a record: title, description, some keyword, category, or type. -/
def matchesQuery (q : Str) (doc : DocItem) : Prop :=
  toLowerStr q <:+: toLowerStr doc.title ∨
    toLowerStr q <:+: toLowerStr doc.description ∨
    (∃ k ∈ doc.keywords, toLowerStr q <:+: toLowerStr k) ∨
    toLowerStr q <:+: toLowerStr doc.category ∨
    toLowerStr q <:+: toLowerStr doc.type

/-- The spec's reading of the exact-match rule, used to compare against
`codeTitlePart`: the segment of the title after the LAST `:`/`.` separator. -/
def specSegmentAfterLastSep (titleLower : Str) : Str :=
  (splitOnPred isSepChar titleLower).getLastD titleLower

/-! ## Helper lemmas -/

/-- Membership in an `insertScored` insertion. -/
theorem mem_insertScored (a x : DocItem × Int) (l : List (DocItem × Int)) :
    a ∈ insertScored x l ↔ a = x ∨ a ∈ l := by
  induction l with
  | nil => simp [insertScored]
  | cons y ys ih =>
    unfold insertScored
    split
    · simp [or_assoc]
    · simp only [List.mem_cons, ih]
      tauto

/-- `sortResults` permutes its input: membership is preserved. -/
theorem mem_sortResults (a : DocItem × Int) (l : List (DocItem × Int)) :
    a ∈ sortResults l ↔ a ∈ l := by
  induction l with
  | nil => simp [sortResults]
  | cons x xs ih => simp [sortResults, mem_insertScored, ih]

/-- A record is only scored (not skipped) when the query occurs,
case-insensitively, in one of its searchable fields. -/
theorem scoreDoc_some_matches (q : Str) (doc : DocItem) (sc : Int)
    (h : scoreDoc (toLowerStr q) doc = some sc) : matchesQuery q doc := by
  unfold scoreDoc at h
  split at h
  · next h1 => exact Or.inl ((strIncludes_iff _ _).mp h1)
  · next h1 =>
    split at h
    · exact Option.noConfusion h
    · next hcond =>
      cases hdb : strIncludes (toLowerStr doc.description) (toLowerStr q) with
      | true => exact Or.inr (Or.inl ((strIncludes_iff _ _).mp hdb))
      | false =>
        cases hkb : doc.keywords.any fun keyword =>
            strIncludes (toLowerStr keyword) (toLowerStr q) with
        | true =>
          obtain ⟨k, hkmem, hki⟩ := List.any_eq_true.mp hkb
          exact Or.inr (Or.inr (Or.inl ⟨k, hkmem, (strIncludes_iff _ _).mp hki⟩))
        | false =>
          cases hcb : strIncludes (toLowerStr doc.category) (toLowerStr q) with
          | true => exact Or.inr (Or.inr (Or.inr (Or.inl ((strIncludes_iff _ _).mp hcb))))
          | false =>
            cases htb : strIncludes (toLowerStr doc.type) (toLowerStr q) with
            | true => exact Or.inr (Or.inr (Or.inr (Or.inr ((strIncludes_iff _ _).mp htb))))
            | false => exact absurd (by rw [hdb, hkb, hcb, htb]; rfl) hcond

/-- The output of `truncateDescription` never exceeds 200 characters plus
the three-character ellipsis marker. -/
theorem truncateDescription_length_le (o : Option Str) :
    (truncateDescription o).length ≤ 203 := by
  cases o with
  | none => simp [truncateDescription]
  | some st =>
    simp only [truncateDescription]
    split_ifs with h1 h2
    · simp
    · rw [List.length_append, List.length_take]
      have h3 : ("...".toList).length = 3 := rfl
      omega
    · omega

/-- Every sub-entry produced by the extraction loop comes from a
non-deprecated item among the first 50 of one category array. -/
theorem mem_extractSubitems (d : YAMLDocData) (name : Str) (sub : SubitemData)
    (h : sub ∈ extractSubitems d name) :
    ∃ k l item, getCat d k = some l ∧ item ∈ l.take 50 ∧ isDeprecated item = false ∧
      sub = mkSubitem d.type name k item := by
  unfold extractSubitems at h
  obtain ⟨k, _, hsub⟩ := List.mem_flatMap.mp h
  cases hcat : getCat d k with
  | none => rw [hcat] at hsub; simp at hsub
  | some l =>
    rw [hcat] at hsub
    obtain ⟨item, hitem, rfl⟩ := List.mem_map.mp hsub
    obtain ⟨hmem, hdep⟩ := List.mem_filter.mp hitem
    exact ⟨k, l, item, hcat, hmem, by simpa using hdep, rfl⟩

/-- A converted metadata record carries the metadata's description
(with the JS `|| ""` default). -/
theorem metadataToDocItem_description (metadata : FileMetadata) (r : DocItem)
    (h : metadataToDocItem metadata = some r) : r.description = (metadata.description).getD [] := by
  unfold metadataToDocItem at h
  split at h
  · exact Option.noConfusion h
  · split at h
    · exact Option.noConfusion h
    · cases h; rfl

/-- Sub-entry descriptions of every metadata produced by a file parse are
truncated, and the metadata description itself is within the cap. -/
theorem fileMetadataOf_descriptions (f : ZipFile) (meta : FileMetadata)
    (h : fileMetadataOf f = some meta) :
    ((meta.description).getD []).length ≤ 203 ∧
      ∀ sub ∈ meta.subitems, sub.description.length ≤ 203 := by
  unfold fileMetadataOf at h
  split_ifs at h with h1 h2
  · cases h
    unfold parseMarkdownFile
    split <;> refine ⟨?_, by simp⟩ <;> simp [truncateDescription_length_le]
  · unfold parseYamlFile at h
    split at h
    · exact Option.noConfusion h
    · split at h
      · exact Option.noConfusion h
      · split at h
        · exact Option.noConfusion h
        · cases h
          refine ⟨by simpa using truncateDescription_length_le _, ?_⟩
          intro sub hsub
          obtain ⟨k, l, item, _, _, _, rfl⟩ := mem_extractSubitems _ _ sub hsub
          exact truncateDescription_length_le item.summary

/-! ## Concrete fixtures -/

/-- A minimal concrete record used in cache fixtures. -/
def docSample : DocItem :=
  { id := "sample".toList, title := "Sample".toList, description := "".toList
    url := "https://create.roblox.com/docs/sample".toList, category := "Documentation".toList
    keywords := [], type := "guide".toList }

/-- A cached payload written one hour (in milliseconds) before the read
below: fresh, non-expired, with a non-empty record list. -/
def entryFresh : CacheEntry :=
  { data := [docSample], timestamp := 3600000, sha := some "abc123".toList }

/-! ## Claims about the cache store and the fetch orchestration -/

/-- Claim C1 (status: code_bug).  The spec and the extension changelog say
the cache store treats an entry written under a different extension
version as absent on every read.  The code stores no extension-version
tag at all — the persisted shape is `{ data, timestamp, sha }` (see
`CacheEntry`) — and `getCachedData` returns every non-corrupt, non-expired
entry unconditionally.  Here a fresh entry (necessarily written by some
earlier extension version, since no version is recorded) is returned
verbatim rather than treated as absent. -/
theorem getCachedData_ignores_extension_version :
    getCachedData (some (Except.ok entryFresh)) 7200000 = some entryFresh := by rfl

/-- The archive download outcome in which the transport succeeded but the
downloaded bytes cannot be opened as a valid archive
(`JSZip.loadAsync` throws). -/
def corruptArchiveDownload : Except Unit (Except Unit (List ZipFile)) :=
  Except.ok (Except.error ())

/-- Claim C2 (counterexample).  With a corrupt archive and a still-valid
cached entry, `fetchFreshData` returns normally (`Except.ok`) with an
empty record list: the archive-integrity failure does NOT propagate to
the caller of the refresh operation — it is converted into an empty
result by the surrounding catch — refuting the claimed propagation.  (The
cache slot is indeed left unchanged.) -/
theorem fetchFreshData_archive_failure_not_propagated :
    fetchFreshData (some "abc123".toList) corruptArchiveDownload (some entryFresh) 7200000 =
      Except.ok ([], some entryFresh) := by rfl

/-- Claim C2 (amended).  When the downloaded bytes cannot be opened as a
valid archive, the error does propagate out of the archive processor
(`processZipArchive` re-throws it), but the refresh operation catches it
and returns an empty record list instead of propagating it to its own
caller; the cache slot — and hence any still-valid cached entry — is left
untouched (neither cleared nor overwritten). -/
theorem fetchFreshData_archive_failure_preserves_cache
    (sha : Option Str) (cache : Option CacheEntry) (now : Nat) :
    processZipArchive (Except.error ()) = Except.error () ∧
      fetchFreshData sha (Except.ok (Except.error ())) cache now = Except.ok ([], cache) :=
  ⟨rfl, rfl⟩

/-- Claim C10 (status: confirmed).  A valid, unexpired cache entry whose
record list is empty is treated by `fetchDocsData` exactly like a cache
miss: the outcome is the blocking fresh fetch, on which no background
update check is scheduled (the check is only reached on the
`servedFromCache` path). -/
theorem emptyCachedList_triggers_blocking_fetch
    (stored : Option (Except Unit CacheEntry)) (now : Nat) (e : CacheEntry)
    (hget : getCachedData stored now = some e) (hempty : e.data = []) :
    fetchDocsData stored now = FetchOutcome.blockingFreshFetch := by
  unfold fetchDocsData
  rw [hget]
  simp [hempty]

/-- A stored cache slot holding a fresh entry with an empty record list. -/
def storedEmptyFresh : Option (Except Unit CacheEntry) :=
  some (Except.ok { data := [], timestamp := 3600000, sha := some "abc123".toList })

/-- Witness for `emptyCachedList_triggers_blocking_fetch` at a concrete
fresh-but-empty cached entry. -/
theorem emptyCachedList_triggers_blocking_fetch_witness :
    getCachedData storedEmptyFresh 7200000 =
        some { data := [], timestamp := 3600000, sha := some "abc123".toList } ∧
      fetchDocsData storedEmptyFresh 7200000 = FetchOutcome.blockingFreshFetch :=
  ⟨by rfl, emptyCachedList_triggers_blocking_fetch storedEmptyFresh 7200000 _ (by rfl) rfl⟩

/-! ## Claims about the extractor -/

/-- A structured definition document of non-enumeration type with one
plain property. -/
def dataClassBar : YAMLDocData :=
  { name := some "Foo".toList, type := some "class".toList, summary := none
    properties := some [{ name := "Bar".toList, summary := none, tags := none }]
    methods := none, events := none, callbacks := none, items := none, functions := none }

/-- Claim C3 (counterexample).  For a non-enumeration owner `Foo` with a
property `Bar`, the extracted sub-entry title is the raw item name
`Bar` — NOT the owner-qualified `Foo.Bar` the claim describes for the
normal (non-enum) case.  The extractor only generates `Owner.Member`
titles for enumeration-type owners; elsewhere any qualification present
comes verbatim from the source data, not from the code. -/
theorem subitem_title_not_dot_joined :
    (parseYamlFile "u".toList (Except.ok dataClassBar)).map
        (fun m => m.subitems.map SubitemData.title) = some ["Bar".toList] ∧
      ("Bar".toList : Str) ≠ "Foo".toList ++ '.' :: "Bar".toList := by decide

/-- Claim C3 (amended).  Every extracted sub-entry title is
`subitemTitle`: generated as `Owner.Member` exactly when the owning
document's type is the enumeration type, and the sub-entry's source name
verbatim otherwise. -/
theorem subitem_title_formula (d : YAMLDocData) (name : Str) (sub : SubitemData)
    (h : sub ∈ extractSubitems d name) :
    ∃ item, (∃ k l, getCat d k = some l ∧ item ∈ l.take 50) ∧
      sub.title = subitemTitle d.type name item := by
  obtain ⟨k, l, item, hcat, hmem, _, rfl⟩ := mem_extractSubitems d name sub h
  exact ⟨item, ⟨k, l, hcat, hmem⟩, rfl⟩

/-- An enumeration-type document used as witness data for the amended C3. -/
def dataEnumWood : YAMLDocData :=
  { name := some "Material".toList, type := some "enum".toList, summary := none
    properties := none, methods := none, events := none, callbacks := none
    items := some [{ name := "Wood".toList, summary := none, tags := none }]
    functions := none }

/-- Witness for `subitem_title_formula`: the enum member `Wood` of
`Material` is extracted with the generated title `Material.Wood`. -/
theorem subitem_title_formula_witness :
    (⟨"items".toList, "Material.Wood".toList, []⟩ : SubitemData) ∈
        extractSubitems dataEnumWood "Material".toList ∧
      ∃ item, (∃ k l, getCat dataEnumWood k = some l ∧ item ∈ l.take 50) ∧
        ("Material.Wood".toList : Str) = subitemTitle dataEnumWood.type "Material".toList item :=
  ⟨by decide, subitem_title_formula dataEnumWood "Material".toList
    (⟨"items".toList, "Material.Wood".toList, []⟩ : SubitemData) (by decide)⟩

/-- Claim C9 (status: confirmed).  Every sub-entry record produced by the
extraction loop originates from a NON-deprecated source item (among the
first 50 of its category): an item tagged with the deprecated marker is
dropped entirely at extraction and never reaches the record set. -/
theorem deprecated_subitems_dropped (d : YAMLDocData) (name : Str) (sub : SubitemData)
    (h : sub ∈ extractSubitems d name) :
    ∃ k l item, getCat d k = some l ∧ item ∈ l.take 50 ∧ isDeprecated item = false ∧
      sub = mkSubitem d.type name k item :=
  mem_extractSubitems d name sub h

/-- A document with one deprecated and one live property. -/
def dataWithDeprecated : YAMLDocData :=
  { name := some "Foo".toList, type := some "class".toList, summary := none
    properties := some
      [{ name := "Old".toList, summary := none, tags := some ["Deprecated".toList] },
       { name := "New".toList, summary := none, tags := none }]
    methods := none, events := none, callbacks := none, items := none, functions := none }

/-- Witness for `deprecated_subitems_dropped`: the only extracted
sub-entry of `dataWithDeprecated` is the live `New`, and it traces back
to a non-deprecated source item. -/
theorem deprecated_subitems_dropped_witness :
    (⟨"properties".toList, "New".toList, []⟩ : SubitemData) ∈
        extractSubitems dataWithDeprecated "Foo".toList ∧
      ∃ k l item, getCat dataWithDeprecated k = some l ∧ item ∈ l.take 50 ∧
        isDeprecated item = false ∧
        (⟨"properties".toList, "New".toList, []⟩ : SubitemData) =
          mkSubitem dataWithDeprecated.type "Foo".toList k item :=
  ⟨by decide, deprecated_subitems_dropped dataWithDeprecated "Foo".toList
    (⟨"properties".toList, "New".toList, []⟩ : SubitemData) (by decide)⟩

/-- A definition document carrying the same member name `Qux` under two
different categories. -/
def dataDuplicateQux : YAMLDocData :=
  { name := some "Foo".toList, type := some "class".toList, summary := none
    properties := some [{ name := "Qux".toList, summary := none, tags := none }]
    methods := some [{ name := "Qux".toList, summary := none, tags := none }]
    events := none, callbacks := none, items := none, functions := none }

/-- An archive file producing an id collision. -/
def fileDuplicateQux : ZipFile :=
  { path := "content/en-us/reference/engine/classes/Foo.yaml".toList, dir := false
    mdParse := none, yamlParse := Except.ok dataDuplicateQux }

/-- Claim C7 (counterexample).  One fetch cycle over this archive produces
three pairwise-distinct records (the parent `Foo` and two sub-entries
`Qux` of different types/descriptions), yet their id list is NOT
duplicate-free: both sub-entries get the id
`reference-engine-classes-foo-qux`, refuting the claimed uniqueness of
`id` across the record set of one fetch cycle. -/
theorem record_id_collision :
    (processZipFiles [fileDuplicateQux]).Nodup ∧
      ¬ ((processZipFiles [fileDuplicateQux]).map DocItem.id).Nodup := by decide

/-- Claim C7 (amended).  Record ids are deterministic in the source path
and the sanitised sub-entry title, not injective: two sub-entries of the
same file receive the same id exactly when their titles sanitise to the
same string (so members with equal names under two categories collide,
as in `record_id_collision`); uniqueness holds only when the sanitised
derivations are pairwise distinct. -/
theorem subitem_ids_equal_iff_sanitized_titles (s1 s2 : SubitemData) (m : FileMetadata)
    (h1 : s1.title ≠ []) (h2 : s2.title ≠ []) :
    (subitemToDocItem s1 m).map DocItem.id = (subitemToDocItem s2 m).map DocItem.id ↔
      sanitizeLowerId s1.title = sanitizeLowerId s2.title := by
  unfold subitemToDocItem
  rw [if_neg h1, if_neg h2]
  simp [List.append_right_inj]

/-- Witness for `subitem_ids_equal_iff_sanitized_titles`: two sub-entries
named `Qux` under different categories of the same parent share one id. -/
theorem subitem_ids_equal_iff_sanitized_titles_witness :
    (⟨"properties".toList, "Qux".toList, []⟩ : SubitemData).title ≠ [] ∧
      (⟨"methods".toList, "Qux".toList, []⟩ : SubitemData).title ≠ [] ∧
      ((subitemToDocItem ⟨"properties".toList, "Qux".toList, []⟩
            { title := some "Foo".toList, description := none
              path := "content/en-us/reference/engine/classes/Foo.yaml".toList
              type := "class".toList, subitems := [] }).map DocItem.id =
          (subitemToDocItem ⟨"methods".toList, "Qux".toList, []⟩
            { title := some "Foo".toList, description := none
              path := "content/en-us/reference/engine/classes/Foo.yaml".toList
              type := "class".toList, subitems := [] }).map DocItem.id ↔
        sanitizeLowerId ("Qux".toList) = sanitizeLowerId ("Qux".toList)) :=
  ⟨by decide, by decide,
    subitem_ids_equal_iff_sanitized_titles _ _ _ (by decide) (by decide)⟩

/-- A parent metadata whose title is 200 characters long. -/
def metaLongTitle : FileMetadata :=
  { title := some (List.replicate 200 'a'), description := none, path := "p".toList
    type := "class".toList, subitems := [] }

/-- A sub-entry with no source summary (empty description after truncation). -/
def subNoSummary : SubitemData :=
  { type := "properties".toList, title := "Bar".toList, description := [] }

set_option maxRecDepth 8192 in
/-- Claim C8 (counterexample).  A sub-entry without a source summary gets
the synthesized fallback description `propertie of <parent title>`, which
is NOT passed through `truncateDescription`: with a 200-character parent
title the stored description is 213 characters long, above the claimed
203-character bound. -/
theorem subitem_fallback_description_exceeds_cap :
    (subitemToDocItem subNoSummary metaLongTitle).map (fun r => r.description.length) =
        some 213 ∧ 203 < 213 := by decide

/-- Claim C8 (amended).  Every record of a fetch cycle whose description
came from source text is capped at 200 characters plus the ellipsis
marker (≤ 203 characters); the only exception is a sub-entry whose
truncated source summary is empty, which receives the untruncated
synthesized fallback description and may exceed the cap. -/
theorem description_capped_or_fallback (files : List ZipFile) (r : DocItem)
    (hr : r ∈ processZipFiles files) :
    r.description.length ≤ 203 ∨
      ∃ sub meta, subitemToDocItem sub meta = some r ∧ sub.description = [] := by
  unfold processZipFiles at hr
  obtain ⟨f, _, hrf⟩ := List.mem_flatMap.mp hr
  unfold processFile at hrf
  cases hmeta : fileMetadataOf f with
  | none => rw [hmeta] at hrf; simp at hrf
  | some meta =>
    rw [hmeta] at hrf
    dsimp only at hrf
    cases hdoc : metadataToDocItem meta with
    | none => rw [hdoc] at hrf; simp at hrf
    | some docItem =>
      rw [hdoc] at hrf
      dsimp only at hrf
      obtain ⟨hdesc, hsubs⟩ := fileMetadataOf_descriptions f meta hmeta
      rcases List.mem_cons.mp hrf with rfl | hsub
      · left
        rw [metadataToDocItem_description meta r hdoc]
        exact hdesc
      · obtain ⟨sub, hsmem, hconv⟩ := List.mem_filterMap.mp hsub
        by_cases hse : sub.description = []
        · exact Or.inr ⟨sub, meta, hconv, hse⟩
        · left
          have hrd : r.description = sub.description := by
            unfold subitemToDocItem at hconv
            split at hconv
            · exact Option.noConfusion hconv
            · cases hconv
              simp [hse]
          rw [hrd]
          exact hsubs sub hsmem

/-- A well-formed markdown archive file used as witness input. -/
def fileTutorialMd : ZipFile :=
  { path := "content/en-us/tutorials/a.md".toList, dir := false
    mdParse := some (Except.ok { title := some "T".toList, description := some "D".toList })
    yamlParse := Except.error () }

/-- The record `processZipFiles [fileTutorialMd]` produces. -/
def docTutorialA : DocItem :=
  { id := "tutorials-a".toList, title := "T".toList, description := "D".toList
    url := "https://create.roblox.com/docs/tutorials/a".toList, category := "Tutorials".toList
    keywords := ["content".toList, "en-us".toList, "tutorials".toList, "a.md".toList]
    type := "tutorial".toList }

/-- Witness for `description_capped_or_fallback` on a concrete one-file
archive. -/
theorem description_capped_or_fallback_witness :
    docTutorialA ∈ processZipFiles [fileTutorialMd] ∧
      (docTutorialA.description.length ≤ 203 ∨
        ∃ sub meta, subitemToDocItem sub meta = some docTutorialA ∧ sub.description = []) :=
  ⟨by decide, description_capped_or_fallback [fileTutorialMd] docTutorialA (by decide)⟩

/-! ## Claims about the search ranker -/

/-- Claim C4 (counterexample).  The title `a.b.c` contains the query `c`,
and the segment after the LAST separator is exactly `c`, so the claim
assigns the exact-match base score 1000; the code instead takes
`split(/[:.]/)[1]` — the segment after the FIRST separator, here `b` —
and scores this title at the plain substring tier 250. -/
theorem exact_tier_uses_first_segment :
    strIncludes ("a.b.c".toList) ("c".toList) = true ∧
      specSegmentAfterLastSep ("a.b.c".toList) = "c".toList ∧
      ("a.b.c".toList : Str) ≠ "c".toList ∧
      titleBaseScore ("c".toList) ("a.b.c".toList) = 250 := by decide

/-- Claim C4 (amended).  For a title containing the query, the base score
is 1000 iff the full title equals the query OR `codeTitlePart` — the
segment after the FIRST `:`/`.` separator, falling back to the whole
title when that segment is absent or empty — equals the query; otherwise
500 iff the query is a prefix of the title, and 250 iff it is neither. -/
theorem titleBaseScore_tiers (sl tl : Str) :
    (titleBaseScore sl tl = 1000 ↔ (tl = sl ∨ codeTitlePart tl = sl)) ∧
      (titleBaseScore sl tl = 500 ↔ (¬(tl = sl ∨ codeTitlePart tl = sl) ∧ sl <+: tl)) ∧
      (titleBaseScore sl tl = 250 ↔ (¬(tl = sl ∨ codeTitlePart tl = sl) ∧ ¬ sl <+: tl)) := by
  unfold titleBaseScore
  by_cases h1 : tl = sl ∨ codeTitlePart tl = sl
  · simp [h1]
  · rw [if_neg h1]
    by_cases h2 : List.isPrefixOf sl tl = true
    · have h2p : sl <+: tl := List.isPrefixOf_iff_prefix.mp h2
      simp [h1, h2, h2p]
    · have h2p : ¬ sl <+: tl := fun hp => h2 (List.isPrefixOf_iff_prefix.mpr hp)
      simp [h1, h2, h2p]

/-- Claim C5 (status: confirmed).  Every record the ranker returns, for a
non-whitespace query and any record set and limit, contains the query
case-insensitively in at least one of its title, description, keywords,
category, or type fields: a record is only pushed onto the result list
after one of exactly these match checks succeeds, and sorting,
truncation, and projection only select from that list. -/
theorem ranked_results_match_query (q : Str) (allDocs : List DocItem) (limit : Nat)
    (doc : DocItem) (hq : jsTrim q ≠ []) (hdoc : doc ∈ filteredDocs q allDocs limit) :
    matchesQuery q doc := by
  unfold filteredDocs at hdoc
  obtain ⟨p, hp, hpd⟩ := List.mem_map.mp hdoc
  have hp2 : p ∈ rankScored q allDocs := List.mem_of_mem_take hp
  unfold rankScored at hp2
  split_ifs at hp2 with hempty
  · exact absurd hp2 (List.not_mem_nil p)
  · rw [mem_sortResults] at hp2
    obtain ⟨d, _, hmap⟩ := List.mem_filterMap.mp hp2
    obtain ⟨sc, hsc, hpair⟩ := Option.map_eq_some'.mp hmap
    have hd : d = doc := by rw [← hpair] at hpd; exact hpd
    rw [← hd]
    exact scoreDoc_some_matches q d sc hsc

/-- A concrete record whose title exactly matches the witness query. -/
def docFire : DocItem :=
  { id := "fire".toList, title := "Fire".toList, description := []
    url := [], category := "Classes".toList, keywords := [], type := "class".toList }

/-- Witness for `ranked_results_match_query` with query `fire` over a
one-record set. -/
theorem ranked_results_match_query_witness :
    jsTrim ("fire".toList) ≠ [] ∧ docFire ∈ filteredDocs ("fire".toList) [docFire] 50 ∧
      matchesQuery ("fire".toList) docFire :=
  ⟨by decide, by decide,
    ranked_results_match_query ("fire".toList) [docFire] 50 docFire (by decide) (by decide)⟩

/-- Claim C6 (status: confirmed).  The ranked result with limit `n` holds
at most `n` records and is a prefix of the ranked result over the same
inputs with no limit: the limit is applied as a final `slice` on the
sorted list, before the projection to records. -/
theorem ranked_results_truncation (q : Str) (allDocs : List DocItem) (n : Nat) :
    (filteredDocs q allDocs n).length ≤ n ∧
      filteredDocs q allDocs n <+: filteredDocsAll q allDocs := by
  constructor
  · unfold filteredDocs
    rw [List.length_map, List.length_take]
    exact min_le_left _ _
  · exact ⟨((rankScored q allDocs).drop n).map Prod.fst, by
      unfold filteredDocs filteredDocsAll
      rw [← List.map_append, List.take_append_drop]⟩
